import Mathlib

/-!
Shallow embedding of the supertris game core: the board model and move rules of
src/game.rs and the adversarial search of src/game/searcher.rs.  Machine
integers (`i32`) are modelled as `Int` with the explicit sentinel constants
`INT32_MAX` / `INT32_MIN`; no arithmetic in the evaluator can overflow an
`i32`, which the bounding lemmas below make precise.  The wall-clock budget
check (`MAX_SEARCH_TIME`) of the search is modelled as never exceeded, i.e.
these definitions give the search's pure semantics when the time budget is
not hit.
-/

namespace Supertris

/-- The two players' marks (`Mark` in game.rs). -/
inductive Mark : Type
  | X
  | O
deriving DecidableEq, Fintype

/-- The `Not` implementation for `Mark` (game.rs): swaps the two marks. -/
def Mark.not : Mark → Mark
  | .X => .O
  | .O => .X

def HUMAN_MARK : Mark := .X

def COMPUTER_MARK : Mark := .O

/-- One cell of a 3x3 board: `Option<Mark>`. -/
abbrev Cell := Option Mark

/-- A 3x3 array `[[T; 3]; 3]`, indexed row then column. -/
abbrev Grid (α : Type) := Fin 3 → Fin 3 → α

/-- Functional update of one grid entry (the Rust code assigns in place on a copy). -/
def setG {α : Type} (g : Grid α) (r c : Fin 3) (v : α) : Grid α :=
  fun i j => if i = r ∧ j = c then v else g i j

/-- A single 3x3 sub-board: cell contents plus memoized winner (`InnerBoard`). -/
structure InnerBoard where
  squares : Grid Cell
  winner : Option Mark
deriving DecidableEq

/-- The winner of one line, pivoting on its first listed cell, as each line test
of `InnerBoard::update_winner` does. -/
def lineWin (a b c : Cell) : Option Mark :=
  match a with
  | some p => if b = some p ∧ c = some p then some p else none
  | none => none

/-- First winning line in the scan order of `InnerBoard::update_winner`:
rows 0,1,2 (pivot on the left cell), then columns 0,1,2 (pivot on the top
cell), then the two diagonals (pivot on the centre). -/
def findWinner (sq : Grid Cell) : Option Mark :=
  (lineWin (sq 0 0) (sq 0 1) (sq 0 2)).orElse fun _ =>
  (lineWin (sq 1 0) (sq 1 1) (sq 1 2)).orElse fun _ =>
  (lineWin (sq 2 0) (sq 2 1) (sq 2 2)).orElse fun _ =>
  (lineWin (sq 0 0) (sq 1 0) (sq 2 0)).orElse fun _ =>
  (lineWin (sq 0 1) (sq 1 1) (sq 2 1)).orElse fun _ =>
  (lineWin (sq 0 2) (sq 1 2) (sq 2 2)).orElse fun _ =>
  (match sq 1 1 with
   | some p =>
       if (sq 0 0 = some p ∧ sq 2 2 = some p) ∨ (sq 0 2 = some p ∧ sq 2 0 = some p)
       then some p else none
   | none => none)

/-- `InnerBoard::update_winner`: a no-op when `winner` is already set, otherwise
memoizes the first winning line found. -/
def InnerBoard.update_winner (b : InnerBoard) : InnerBoard :=
  match b.winner with
  | some _ => b
  | none => { b with winner := findWinner b.squares }

/-- `InnerBoard::can_play`: no winner yet and at least one empty cell. -/
def InnerBoard.can_play (b : InnerBoard) : Bool :=
  b.winner.isNone &&
    ((List.finRange 3).any fun r => (List.finRange 3).any fun c => (b.squares r c).isNone)

/-- `InnerBoard::possible_moves`: empty-cell coordinates in row-major order,
empty when the board cannot be played. -/
def InnerBoard.possible_moves (b : InnerBoard) : List (Fin 3 × Fin 3) :=
  if !b.can_play then []
  else
    (List.finRange 3).flatMap fun r =>
      (List.finRange 3).filterMap fun c =>
        if (b.squares r c).isNone then some (r, c) else none

/-- Whether every cell of the sub-board is occupied. -/
def InnerBoard.isFull (b : InnerBoard) : Bool :=
  (List.finRange 3).all fun r => (List.finRange 3).all fun c => (b.squares r c).isSome

/-- Row/column threat test of `Searcher::threats` (and `InnerBoard::threats`):
exactly two cells carry `mark` and at least one cell is empty. -/
def rowThreat {α : Type} [DecidableEq α] (a b c : Option α) (mark : α) : Bool :=
  (([a, b, c].filter fun x => x == some mark).length == 2)
    && ([a, b, c].any fun x => x.isNone)

/-- Diagonal threat test of `Searcher::threats` (and `InnerBoard::threats`):
the explicit two-marks-plus-empty patterns of the source. -/
def diagThreat {α : Type} [DecidableEq α] (a b c : Option α) (mark : α) : Bool :=
  (a == some mark && b == some mark && c.isNone)
    || (a.isNone && b == some mark && c == some mark)
    || (a == some mark && b.isNone && c == some mark)

/-- `Searcher::threats` (searcher.rs), generic in the cell payload;
`InnerBoard::threats` (game.rs) is the same algorithm specialised to
`Option<Mark>` cells, so both are modelled by this one function. -/
def threatsG {α : Type} [DecidableEq α] (sq : Grid (Option α)) (mark : α) : Nat :=
  ((List.finRange 3).countP fun r => rowThreat (sq r 0) (sq r 1) (sq r 2) mark)
    + ((List.finRange 3).countP fun c => rowThreat (sq 0 c) (sq 1 c) (sq 2 c) mark)
    + (if diagThreat (sq 0 0) (sq 1 1) (sq 2 2) mark then 1 else 0)
    + (if diagThreat (sq 0 2) (sq 1 1) (sq 2 0) mark then 1 else 0)

/-- The 3x3 grid of `InnerBoard`s plus memoized overall winner and the
active-square constraint (`OuterBoard`). -/
structure OuterBoard where
  boards : Grid InnerBoard
  overall_winner : Option Mark
  active_square : Option (Fin 3 × Fin 3)
deriving DecidableEq

/-- `OuterBoard::default`: empty sub-boards, no winner, no active square. -/
def OuterBoard.default : OuterBoard :=
  { boards := fun _ _ => { squares := fun _ _ => none, winner := none }
    overall_winner := none
    active_square := none }

/-- A move: target sub-board, cell within it, and the mark being played. -/
structure Move where
  outer : Fin 3 × Fin 3
  inner : Fin 3 × Fin 3
  player : Mark
deriving DecidableEq

/-- `OuterBoard::update_overall_winner`: a no-op when `overall_winner` is set,
otherwise runs the same line scan as `InnerBoard::update_winner` over the grid
of sub-board winners. -/
def OuterBoard.update_overall_winner (b : OuterBoard) : OuterBoard :=
  match b.overall_winner with
  | some _ => b
  | none => { b with overall_winner := findWinner fun i j => (b.boards i j).winner }

/-- The success branch of `OuterBoard::make_move`: place the mark, update the
target sub-board's winner, recompute `active_square` (keep `move.inner` only
when the sub-board there can still be played), then update the overall
winner. -/
def OuterBoard.apply_unchecked (b : OuterBoard) (m : Move) : OuterBoard :=
  let ib := b.boards m.outer.1 m.outer.2
  let ib2 := InnerBoard.update_winner
    { ib with squares := setG ib.squares m.inner.1 m.inner.2 (some m.player) }
  let placed := { b with boards := setG b.boards m.outer.1 m.outer.2 ib2 }
  let withActive :=
    { placed with
      active_square :=
        Option.filter (fun c => (placed.boards c.1 c.2).can_play) (some m.inner) }
  withActive.update_overall_winner

/-- `OuterBoard::make_move`.  Coordinates here are `Fin 3`, i.e. the in-range
values; `make_move_checked` below models the raw `u8`-indexed version together
with Rust's bounds-check panics. -/
def OuterBoard.make_move (b : OuterBoard) (m : Move) : Option OuterBoard :=
  if b.active_square.elim false fun sq => m.outer != sq then none
  else if b.overall_winner.isSome then none
  else if (b.boards m.outer.1 m.outer.2).winner.isSome then none
  else if ((b.boards m.outer.1 m.outer.2).squares m.inner.1 m.inner.2).isSome then none
  else some (b.apply_unchecked m)

/-- `OuterBoard::possible_moves`. -/
def OuterBoard.possible_moves (b : OuterBoard) (player : Mark) : List Move :=
  match b.active_square with
  | some sq =>
      (b.boards sq.1 sq.2).possible_moves.map fun ic =>
        { outer := sq, inner := ic, player := player }
  | none =>
      (List.finRange 3).flatMap fun orow =>
        (List.finRange 3).flatMap fun ocol =>
          (b.boards orow ocol).possible_moves.map fun ic =>
            { outer := (orow, ocol), inner := ic, player := player }

/-- `OuterBoard::random` with the RNG draws made explicit parameters:
`activeChoice` is the uniformly drawn active square, `fills r c ir ic` the
per-cell Bernoulli(fill_percentage) draw, and `marks r c ir ic` the 50/50
mark draw used when the cell is filled.  Mirrors the source order: default
board, seed `active_square`, fill cells, update every sub-board winner, then
update the overall winner. -/
def OuterBoard.randomModel (activeChoice : Fin 3 × Fin 3)
    (fills : Fin 3 → Fin 3 → Fin 3 → Fin 3 → Bool)
    (marks : Fin 3 → Fin 3 → Fin 3 → Fin 3 → Mark) : OuterBoard :=
  let filled : OuterBoard :=
    { OuterBoard.default with
      active_square := some activeChoice
      boards := fun r c =>
        { squares := fun ir ic => if fills r c ir ic then some (marks r c ir ic) else none
          winner := none } }
  let updated := { filled with boards := fun r c => (filled.boards r c).update_winner }
  updated.update_overall_winner

/-- `i32::MAX`. -/
def INT32_MAX : Int := 2147483647

/-- `i32::MIN`. -/
def INT32_MIN : Int := -2147483648

def MAX_DEPTH : Nat := 16

/-- Signed control contribution of one cell from `pov`'s perspective:
`+pts` for `pov`'s mark, `-pts` for the opponent's, `0` for empty.  This is the
shape of the centre/edge/corner terms in both evaluators. -/
def cellControl (pov : Mark) (c : Cell) (pts : Int) : Int :=
  match c with
  | some m => if m = pov then pts else -pts
  | none => 0

/-- Row-major sum of a per-sub-board quantity over the 3x3 outer grid,
mirroring the `for row / for col` accumulation loops of both evaluators. -/
def sumBoards (f : Fin 3 → Fin 3 → Int) : Int :=
  f 0 0 + f 0 1 + f 0 2 + f 1 0 + f 1 1 + f 1 2 + f 2 0 + f 2 1 + f 2 2

/-- Per-sub-board term of `OuterBoard::heuristic_score` (game.rs): a won board
contributes plus or minus 1000; otherwise threats times 100 plus centre, edge
and corner control, always from `COMPUTER_MARK`'s perspective.  The edge and
corner loops of the source are unrolled. -/
def innerScoreHS (ib : InnerBoard) : Int :=
  match ib.winner with
  | some w => if w = COMPUTER_MARK then 1000 else -1000
  | none =>
      100 * (threatsG ib.squares COMPUTER_MARK : Int)
        - 100 * (threatsG ib.squares HUMAN_MARK : Int)
        + cellControl COMPUTER_MARK (ib.squares 1 1) 10
        + cellControl COMPUTER_MARK (ib.squares 0 1) 5
        + cellControl COMPUTER_MARK (ib.squares 1 0) 5
        + cellControl COMPUTER_MARK (ib.squares 1 2) 5
        + cellControl COMPUTER_MARK (ib.squares 2 1) 5
        + cellControl COMPUTER_MARK (ib.squares 0 0) 2
        + cellControl COMPUTER_MARK (ib.squares 0 2) 2
        + cellControl COMPUTER_MARK (ib.squares 2 0) 2
        + cellControl COMPUTER_MARK (ib.squares 2 2) 2

/-- `OuterBoard::heuristic_score` (game.rs): the static evaluator used by
`OuterBoard::computer_move`, always from `COMPUTER_MARK`'s perspective. -/
def OuterBoard.heuristic_score (b : OuterBoard) : Int :=
  match b.overall_winner with
  | some w => if w = COMPUTER_MARK then INT32_MAX else INT32_MIN
  | none => sumBoards fun r c => innerScoreHS (b.boards r c)

/-- Modelled from the spec: `OuterBoard::meta_board` is called by
`Searcher::heuristic` but its definition is not among the provided sources.
Per spec section 4.3 it is the 3x3 grid of sub-board winners, win-checked the
same way as `InnerBoard`. -/
def OuterBoard.meta_board (b : OuterBoard) : InnerBoard :=
  { squares := fun i j => (b.boards i j).winner
    winner := findWinner fun i j => (b.boards i j).winner }

/-- A slot of the draw-aware meta grid, mirroring `Result<Mark, ()>`:
`won m` is `Ok(m)` and `drawn` is `Err(())`. -/
inductive MetaCell : Type
  | won (m : Mark)
  | drawn
deriving DecidableEq, Fintype

/-- Modelled from the spec: `OuterBoard::meta_board_with_draws` is called by
`Searcher::heuristic` but its definition is not among the provided sources.
Per spec sections 3 and 4.3 each sub-board is classified as
Win(Mark) / Draw / Open: a won board maps to `some (won m)`, a full board
without a winner to the `Draw` sentinel `some drawn`, any other board to the
open slot `none`. -/
def OuterBoard.meta_board_with_draws (b : OuterBoard) : Grid (Option MetaCell) :=
  fun i j =>
    match (b.boards i j).winner with
    | some m => some (.won m)
    | none => if (b.boards i j).isFull then some .drawn else none

/-- The `score_inner` closure of `Searcher::heuristic` (searcher.rs): like
`innerScoreHS` but relative to `player`, with the threat term optional. -/
def scoreInner (player : Mark) (ib : InnerBoard) (score_threats : Bool) : Int :=
  match ib.winner with
  | some w => if w = player then 1000 else -1000
  | none =>
      (if score_threats then
        100 * (threatsG ib.squares player : Int)
          - 100 * (threatsG ib.squares player.not : Int)
      else 0)
        + cellControl player (ib.squares 1 1) 10
        + cellControl player (ib.squares 0 1) 5
        + cellControl player (ib.squares 1 0) 5
        + cellControl player (ib.squares 1 2) 5
        + cellControl player (ib.squares 2 1) 5
        + cellControl player (ib.squares 0 0) 2
        + cellControl player (ib.squares 0 2) 2
        + cellControl player (ib.squares 2 0) 2
        + cellControl player (ib.squares 2 2) 2

/-- The accumulated score of `Searcher::heuristic` before the tempo bonus:
the meta-board positional term without threats plus the draw-aware meta-board
threat term, the total multiplied by 5, plus all nine per-sub-board terms with
threats. -/
def heuristicBase (board : OuterBoard) (player : Mark) : Int :=
  (scoreInner player board.meta_board false
      + 100 * (threatsG board.meta_board_with_draws (.won player) : Int)
      - 100 * (threatsG board.meta_board_with_draws (.won player.not) : Int)) * 5
    + sumBoards fun r c => scoreInner player (board.boards r c) true

/-- `Searcher::heuristic` (searcher.rs): terminal meta-board test, then the
accumulated positional score, plus the tempo bonus of 200 when there is no
active-square constraint. -/
def Searcher.heuristic (board : OuterBoard) (player next_mark : Mark) : Int :=
  match board.meta_board.winner with
  | some w => if w = player then INT32_MAX else INT32_MIN
  | none =>
      if board.active_square.isNone then
        if next_mark = player then heuristicBase board player + 200
        else heuristicBase board player - 200
      else heuristicBase board player

/-- The maximizing alpha-beta loop shared by `Searcher::branch` (searcher.rs)
and the nested searcher of `OuterBoard::computer_move` (game.rs):
`step child alpha beta` is the recursive call one ply deeper.  Moves whose
application fails are skipped (the source's `let Some(child) = ... else
continue`); the loop stops on a beta cut-off. -/
def abMaxLoop (step : OuterBoard → Int → Int → Int) (node : OuterBoard) :
    List Move → Int → Int → Int → Int
  | [], best, _, _ => best
  | m :: rest, best, alpha, beta =>
    match node.make_move m with
    | none => abMaxLoop step node rest best alpha beta
    | some child =>
      let ev := step child alpha beta
      let best2 := max best ev
      let alpha2 := max alpha ev
      if beta ≤ alpha2 then best2 else abMaxLoop step node rest best2 alpha2 beta

/-- The minimizing alpha-beta loop, symmetric to `abMaxLoop`, stopping on an
alpha cut-off. -/
def abMinLoop (step : OuterBoard → Int → Int → Int) (node : OuterBoard) :
    List Move → Int → Int → Int → Int
  | [], best, _, _ => best
  | m :: rest, best, alpha, beta =>
    match node.make_move m with
    | none => abMinLoop step node rest best alpha beta
    | some child =>
      let ev := step child alpha beta
      let best2 := min best ev
      let beta2 := min beta ev
      if beta2 ≤ alpha then best2 else abMinLoop step node rest best2 alpha beta2

/-- `Searcher::branch` (searcher.rs): depth-limited minimax with alpha-beta
pruning.  The cutoff evaluates `Searcher::heuristic` with the searcher's own
`player` and, as the next-to-move mark, `player` when maximizing and its
opponent otherwise.  The wall-clock cutoff is modelled as never firing. -/
def Searcher.branch (player : Mark) : Nat → OuterBoard → Bool → Int → Int → Int
  | 0, node, maximizing, _, _ =>
      Searcher.heuristic node player (if maximizing then player else player.not)
  | depth + 1, node, maximizing, alpha, beta =>
      if node.overall_winner.isSome then
        Searcher.heuristic node player (if maximizing then player else player.not)
      else if maximizing then
        abMaxLoop (fun child a b2 => Searcher.branch player depth child false a b2) node
          (node.possible_moves player) INT32_MIN alpha beta
      else
        abMinLoop (fun child a b2 => Searcher.branch player depth child true a b2) node
          (node.possible_moves player.not) INT32_MAX alpha beta

/-- One folding step of rayon's `max_by_key`: keep the new element exactly
when its key is at least the current best's, so that among equal keys the
latest element wins. -/
def mbkStep {α : Type} (key : α → Int) (acc : Option α) (x : α) : Option α :=
  match acc with
  | none => some x
  | some b => if key b ≤ key x then some x else some b

/-- rayon's `max_by_key` over a key into `Int`: among several maximal elements
the latest one is returned (rayon documents the same tie-break as the standard
library's `Iterator::max_by_key`). -/
def maxByKeyLast {α : Type} (key : α → Int) (l : List α) : Option α :=
  l.foldl (mbkStep key) none

/-- `Searcher::search` (searcher.rs), the `best_move` entry point: pairs every
move of `possible_moves player` with its alpha-beta value one ply deeper
(illegally generated moves score `i32::MIN`) and keeps the maximal pair. -/
def Searcher.search (board : OuterBoard) (player : Mark) : Option (Move × Int) :=
  maxByKeyLast (fun p => p.2)
    ((board.possible_moves player).map fun m =>
      (m, (board.make_move m).elim INT32_MIN fun child =>
            Searcher.branch player (MAX_DEPTH - 1) child false INT32_MIN INT32_MAX))

/-- The nested searcher of `OuterBoard::computer_move` (game.rs): identical to
`Searcher::branch` except that cutoffs evaluate `heuristic_score` and the two
sides are hard-wired to `COMPUTER_MARK` / `HUMAN_MARK`. -/
def cmBranch : Nat → OuterBoard → Bool → Int → Int → Int
  | 0, node, _, _, _ => node.heuristic_score
  | depth + 1, node, maximizing, alpha, beta =>
      if node.overall_winner.isSome then node.heuristic_score
      else if maximizing then
        abMaxLoop (fun child a b2 => cmBranch depth child false a b2) node
          (node.possible_moves COMPUTER_MARK) INT32_MIN alpha beta
      else
        abMinLoop (fun child a b2 => cmBranch depth child true a b2) node
          (node.possible_moves HUMAN_MARK) INT32_MAX alpha beta

/-- `OuterBoard::computer_move` (game.rs): maximal move of
`possible_moves COMPUTER_MARK` keyed by the nested searcher's value. -/
def OuterBoard.computer_move (b : OuterBoard) : Option Move :=
  maxByKeyLast (fun m =>
      (b.make_move m).elim INT32_MIN fun child =>
        cmBranch (MAX_DEPTH - 1) child false INT32_MIN INT32_MAX)
    (b.possible_moves COMPUTER_MARK)

/-- A move exactly as the Rust `Move` struct stores it: `u8` coordinates that
may lie outside `0..3` (modelled as `Nat`; the claims never exercise `u8`
overflow). -/
structure MoveN where
  outer : Nat × Nat
  inner : Nat × Nat
  player : Mark
deriving DecidableEq

/-- `OuterBoard::make_move` over raw coordinates, with Rust's array
bounds-check panics made explicit: `Except.error ()` is an index-out-of-bounds
panic, `Except.ok r` a normal return.  The check order follows the source:
the active-square and overall-winner rejections come before any indexing, the
outer coordinates are bounds-checked by the target-board access of the winner
test, and the inner coordinates by the cell access that follows it. -/
def OuterBoard.make_move_checked (b : OuterBoard) (m : MoveN) :
    Except Unit (Option OuterBoard) :=
  if b.active_square.elim false fun sq => m.outer != ((sq.1 : Nat), (sq.2 : Nat)) then
    .ok none
  else if b.overall_winner.isSome then .ok none
  else if ho1 : m.outer.1 < 3 then
    if ho2 : m.outer.2 < 3 then
      let o1 : Fin 3 := ⟨m.outer.1, ho1⟩
      let o2 : Fin 3 := ⟨m.outer.2, ho2⟩
      if (b.boards o1 o2).winner.isSome then .ok none
      else if hi1 : m.inner.1 < 3 then
        if hi2 : m.inner.2 < 3 then
          let i1 : Fin 3 := ⟨m.inner.1, hi1⟩
          let i2 : Fin 3 := ⟨m.inner.2, hi2⟩
          if ((b.boards o1 o2).squares i1 i2).isSome then .ok none
          else
            .ok (some (b.apply_unchecked
              { outer := (o1, o2), inner := (i1, i2), player := m.player }))
        else .error ()
      else .error ()
    else .error ()
  else .error ()

/-! ### The C5 claim's reading of the meta threat rule, and the corrected one -/

/-- The per-line threat condition exactly as claim C5 words it: exactly two
slots won by `p`, and at least one slot that is not a win for either player
(so that an open slot and a drawn slot both qualify as the third slot). -/
def claimThreatLine (a b c : Option MetaCell) (p : Mark) : Bool :=
  (([a, b, c].filter fun x => x == some (MetaCell.won p)).length == 2)
    && ([a, b, c].any fun x => x != some (MetaCell.won p) && x != some (MetaCell.won p.not))

/-- Threat count over the eight lines under the claim's per-line condition. -/
def claimMetaThreats (g : Grid (Option MetaCell)) (p : Mark) : Nat :=
  ((List.finRange 3).countP fun r => claimThreatLine (g r 0) (g r 1) (g r 2) p)
    + ((List.finRange 3).countP fun c => claimThreatLine (g 0 c) (g 1 c) (g 2 c) p)
    + (if claimThreatLine (g 0 0) (g 1 1) (g 2 2) p then 1 else 0)
    + (if claimThreatLine (g 0 2) (g 1 1) (g 2 0) p then 1 else 0)

/-- The corrected per-line condition: exactly two slots won by `p` and at
least one open (`none`) slot; a drawn slot does not qualify as the third. -/
def openThirdLine (a b c : Option MetaCell) (p : Mark) : Bool :=
  (([a, b, c].filter fun x => x == some (MetaCell.won p)).length == 2)
    && ([a, b, c].any fun x => x.isNone)

/-- Threat count over the eight lines under the corrected condition. -/
def openMetaThreats (g : Grid (Option MetaCell)) (p : Mark) : Nat :=
  ((List.finRange 3).countP fun r => openThirdLine (g r 0) (g r 1) (g r 2) p)
    + ((List.finRange 3).countP fun c => openThirdLine (g 0 c) (g 1 c) (g 2 c) p)
    + (if openThirdLine (g 0 0) (g 1 1) (g 2 2) p then 1 else 0)
    + (if openThirdLine (g 0 2) (g 1 1) (g 2 0) p then 1 else 0)

/-! ### Concrete boards used by counterexamples and witnesses -/

/-- The empty sub-board. -/
def ibEmpty : InnerBoard := { squares := fun _ _ => none, winner := none }

/-- A sub-board won by X via its top row, with the winner memoized. -/
def ibWonX : InnerBoard :=
  { squares := ![![some .X, some .X, some .X], ![none, none, none], ![none, none, none]]
    winner := some .X }

/-- A sub-board with X at (0,0) and (0,1): one X short of the top row. -/
def ibNearX : InnerBoard :=
  { squares := ![![some .X, some .X, none], ![none, none, none], ![none, none, none]]
    winner := none }

/-- A full sub-board with no three-in-a-row: a draw. -/
def ibDrawn : InnerBoard :=
  { squares := ![![some .X, some .X, some .O],
                 ![some .O, some .O, some .X],
                 ![some .X, some .X, some .O]]
    winner := none }

/-- `ibDrawn` with its last cell (2,2) still empty. -/
def ibAlmostFull : InnerBoard :=
  { squares := ![![some .X, some .X, some .O],
                 ![some .O, some .O, some .X],
                 ![some .X, some .X, none]]
    winner := none }

/-- One X short of winning the game: boards (0,0) and (0,1) are won by X and
board (0,2) only needs an X at its cell (0,2) to complete the meta top row. -/
def bWin : OuterBoard :=
  { boards := ![![ibWonX, ibWonX, ibNearX],
                ![ibEmpty, ibEmpty, ibEmpty],
                ![ibEmpty, ibEmpty, ibEmpty]]
    overall_winner := none
    active_square := some (0, 2) }

/-- The move that wins the whole game from `bWin`. -/
def mWin : Move := { outer := (0, 2), inner := (0, 2), player := .X }

/-- The board produced by playing `mWin` on `bWin`. -/
def bWinPost : OuterBoard := (bWin.make_move mWin).getD OuterBoard.default

def mFirst : Move := { outer := (0, 0), inner := (0, 0), player := .X }

/-- A move into the empty sub-board (1,0) of `bWinPost`. -/
def mMid : Move := { outer := (1, 0), inner := (0, 0), player := .X }

/-- The last move `bWinPost.possible_moves` enumerates for O. -/
def mLastO : Move := { outer := (2, 2), inner := (2, 2), player := .O }

/-- Every sub-board full and drawn except (1,1), which has one empty cell. -/
def bNearDraw : OuterBoard :=
  { boards := ![![ibDrawn, ibDrawn, ibDrawn],
                ![ibDrawn, ibAlmostFull, ibDrawn],
                ![ibDrawn, ibDrawn, ibDrawn]]
    overall_winner := none
    active_square := some (1, 1) }

def mNearDraw : Move := { outer := (1, 1), inner := (2, 2), player := .O }

/-- Sub-board with two empty cells, (0,2) and (2,2); an X at (0,2) completes
the top row, an X at (2,2) completes nothing. -/
def ibTrapX : InnerBoard :=
  { squares := ![![some .X, some .X, none],
                 ![some .O, some .O, some .X],
                 ![some .X, some .O, none]]
    winner := none }

/-- A sub-board whose squares already hold a full X top row while `winner` was
never memoized, as the raw `InnerBoard` value type allows. -/
def ibGhostX : InnerBoard :=
  { squares := ![![some .X, some .X, some .X], ![none, none, none], ![none, none, none]]
    winner := none }

/-- A position with exactly two legal X moves, both in board (0,0): one wins
the game at once (completing the meta top row), the other merely sends play to
board (2,2), where every O reply completes the meta right column for X. -/
def bTie : OuterBoard :=
  { boards := ![![ibTrapX, ibWonX, ibWonX],
                ![ibEmpty, ibEmpty, ibWonX],
                ![ibEmpty, ibEmpty, ibGhostX]]
    overall_winner := none
    active_square := some (0, 0) }

/-- The immediately winning move from `bTie`. -/
def mTieWin : Move := { outer := (0, 0), inner := (0, 2), player := .X }

/-- The non-winning move from `bTie`. -/
def mTieOther : Move := { outer := (0, 0), inner := (2, 2), player := .X }

/-- Boards (0,0) and (0,1) won by X, board (0,2) full and drawn: the meta top
row holds two X wins and a drawn third slot. -/
def bMetaDraw : OuterBoard :=
  { boards := ![![ibWonX, ibWonX, ibDrawn],
                ![ibEmpty, ibEmpty, ibEmpty],
                ![ibEmpty, ibEmpty, ibEmpty]]
    overall_winner := none
    active_square := none }

/-- A decided board whose memoized overall winner agrees with the recomputed
meta winner: the whole top row of sub-boards is won by X. -/
def bDecidedRow : OuterBoard :=
  { boards := ![![ibWonX, ibWonX, ibWonX],
                ![ibEmpty, ibEmpty, ibEmpty],
                ![ibEmpty, ibEmpty, ibEmpty]]
    overall_winner := some .X
    active_square := none }

/-- The board reached from the empty board by X playing cell (0,0) of
sub-board (0,0). -/
def bFirstPost : OuterBoard := (OuterBoard.default.make_move mFirst).getD OuterBoard.default

/-- `OuterBoard::random` under the draw that fills every cell (as
`fill_percentage = 1.0` forces) with the mark draw constantly X. -/
def bRandomFull : OuterBoard :=
  OuterBoard.randomModel (0, 0) (fun _ _ _ _ => true) (fun _ _ _ _ => .X)

/-! ### Structural lemmas about the move rules -/

lemma update_overall_winner_boards (b : OuterBoard) :
    b.update_overall_winner.boards = b.boards := by
  unfold OuterBoard.update_overall_winner
  cases b.overall_winner <;> rfl

lemma update_overall_winner_active (b : OuterBoard) :
    b.update_overall_winner.active_square = b.active_square := by
  unfold OuterBoard.update_overall_winner
  cases b.overall_winner <;> rfl

lemma make_move_eq_some (b : OuterBoard) (m : Move) (c : OuterBoard)
    (h : b.make_move m = some c) : c = b.apply_unchecked m := by
  unfold OuterBoard.make_move at h
  split at h
  · exact Option.noConfusion h
  split at h
  · exact Option.noConfusion h
  split at h
  · exact Option.noConfusion h
  split at h
  · exact Option.noConfusion h
  exact (Option.some.inj h).symm

lemma apply_unchecked_active (b : OuterBoard) (m : Move) :
    (b.apply_unchecked m).active_square
      = if ((b.apply_unchecked m).boards m.inner.1 m.inner.2).can_play
        then some m.inner else none := by
  unfold OuterBoard.apply_unchecked
  simp only [update_overall_winner_active, update_overall_winner_boards]
  rfl

lemma apply_unchecked_overall (b : OuterBoard) (m : Move)
    (hw : b.overall_winner = none) :
    (b.apply_unchecked m).overall_winner
      = findWinner fun i j => ((b.apply_unchecked m).boards i j).winner := by
  unfold OuterBoard.apply_unchecked OuterBoard.update_overall_winner
  simp only [hw]

lemma mem_inner_possible_moves (ib : InnerBoard) (rc : Fin 3 × Fin 3)
    (h : rc ∈ ib.possible_moves) :
    ib.winner = none ∧ ib.squares rc.1 rc.2 = none := by
  unfold InnerBoard.possible_moves at h
  by_cases hc : ib.can_play
  · rw [hc] at h
    simp only [Bool.not_true, Bool.false_eq_true, if_false, List.mem_flatMap,
      List.mem_filterMap] at h
    obtain ⟨r, -, c, -, hcell⟩ := h
    split at hcell
    · obtain rfl := (Option.some.inj hcell)
      refine ⟨?_, by simpa [Option.isNone_iff_eq_none] using ‹(ib.squares r c).isNone = true›⟩
      have hw : ib.winner.isNone := by
        unfold InnerBoard.can_play at hc
        simp only [Bool.and_eq_true] at hc
        exact hc.1
      simpa [Option.isNone_iff_eq_none] using hw
    · exact Option.noConfusion hcell
  · rw [Bool.not_eq_true] at hc
    rw [hc] at h
    simp at h

lemma mem_possible_moves_spec (b : OuterBoard) (p : Mark) (m : Move)
    (h : m ∈ b.possible_moves p) :
    (∀ sq, b.active_square = some sq → m.outer = sq)
      ∧ (b.boards m.outer.1 m.outer.2).winner = none
      ∧ (b.boards m.outer.1 m.outer.2).squares m.inner.1 m.inner.2 = none := by
  unfold OuterBoard.possible_moves at h
  cases hA : b.active_square with
  | some sq =>
    rw [hA] at h
    simp only [List.mem_map] at h
    obtain ⟨ic, hic, rfl⟩ := h
    obtain ⟨h1, h2⟩ := mem_inner_possible_moves _ _ hic
    exact ⟨fun sq2 hsq2 => (Option.some.inj hsq2).symm ▸ rfl, h1, h2⟩
  | none =>
    rw [hA] at h
    simp only [List.mem_flatMap, List.mem_map] at h
    obtain ⟨orow, -, ocol, -, ic, hic, rfl⟩ := h
    obtain ⟨h1, h2⟩ := mem_inner_possible_moves _ _ hic
    exact ⟨fun sq2 hsq2 => absurd hsq2 (by simp [hA]), h1, h2⟩

lemma make_move_isSome_of_mem (b : OuterBoard) (p : Mark) (m : Move)
    (hw : b.overall_winner = none) (hm : m ∈ b.possible_moves p) :
    (b.make_move m).isSome := by
  obtain ⟨hact, hwin, hcell⟩ := mem_possible_moves_spec b p m hm
  unfold OuterBoard.make_move
  have h1 : (b.active_square.elim false fun sq => m.outer != sq) = false := by
    cases hA : b.active_square with
    | none => rfl
    | some sq => simp [Option.elim, hact sq hA]
  rw [h1, hw, hwin, hcell]
  simp

/-! ### Lemmas about rayon's last-maximum selection -/

lemma mbkStep_none {α : Type} (key : α → Int) (x : α) :
    mbkStep key none x = some x := rfl

lemma mbkStep_some {α : Type} (key : α → Int) (b x : α) :
    mbkStep key (some b) x = if key b ≤ key x then some x else some b := rfl

lemma mbkFold_isSome {α : Type} (key : α → Int) (l : List α) (b : α) :
    (l.foldl (mbkStep key) (some b)).isSome := by
  induction l generalizing b with
  | nil => rfl
  | cons x rest ih =>
    simp only [List.foldl_cons, mbkStep_some]
    split <;> apply ih

lemma maxByKeyLast_isSome {α : Type} (key : α → Int) (l : List α) (h : l ≠ []) :
    (maxByKeyLast key l).isSome := by
  cases l with
  | nil => exact absurd rfl h
  | cons x rest => exact mbkFold_isSome key rest x

lemma mbkFold_mem {α : Type} (key : α → Int) :
    ∀ (l : List α) (acc : Option α) (x : α),
      l.foldl (mbkStep key) acc = some x → acc = some x ∨ x ∈ l := by
  intro l
  induction l with
  | nil => exact fun acc x h => Or.inl h
  | cons m rest ih =>
    intro acc x h
    simp only [List.foldl_cons] at h
    rcases ih _ _ h with h2 | h2
    · cases acc with
      | none =>
        rw [mbkStep_none] at h2
        exact Or.inr (by simp [← Option.some.inj h2])
      | some b =>
        rw [mbkStep_some] at h2
        split at h2
        · exact Or.inr (by simp [← Option.some.inj h2])
        · exact Or.inl h2
    · exact Or.inr (List.mem_cons_of_mem _ h2)

lemma mbkFold_ge {α : Type} (key : α → Int) :
    ∀ (l : List α) (acc : Option α) (x : α),
      l.foldl (mbkStep key) acc = some x →
      (∀ y ∈ l, key y ≤ key x) ∧ (∀ b, acc = some b → key b ≤ key x) := by
  intro l
  induction l with
  | nil =>
    intro acc x h
    refine ⟨by simp, fun b hb => ?_⟩
    rw [hb] at h
    rw [Option.some.inj h]
  | cons m rest ih =>
    intro acc x h
    simp only [List.foldl_cons] at h
    obtain ⟨h1, h2⟩ := ih _ _ h
    have hm : key m ≤ key x := by
      cases hacc : acc with
      | none => exact h2 m (by simp [mbkStep, hacc] at h ⊢)
      | some b =>
        by_cases hle : key b ≤ key m
        · exact h2 m (by simp [mbkStep, hacc, hle])
        · have hb : key b ≤ key x := h2 b (by simp [mbkStep, hacc, hle])
          exact le_trans (lt_of_not_le hle).le hb
    refine ⟨fun y hy => ?_, fun b hb => ?_⟩
    · rcases List.mem_cons.mp hy with rfl | hy2
      · exact hm
      · exact h1 y hy2
    · by_cases hle : key b ≤ key m
      · exact le_trans hle hm
      · exact h2 b (by simp [mbkStep, hb, hle])

/-! ### Bounds: no evaluator or search value exceeds `i32::MAX` -/

lemma threatsG_le {α : Type} [DecidableEq α] (sq : Grid (Option α)) (mark : α) :
    threatsG sq mark ≤ 8 := by
  unfold threatsG
  have h1 : ((List.finRange 3).countP fun r => rowThreat (sq r 0) (sq r 1) (sq r 2) mark) ≤ 3 :=
    le_trans (List.countP_le_length _) (by simp)
  have h2 : ((List.finRange 3).countP fun c => rowThreat (sq 0 c) (sq 1 c) (sq 2 c) mark) ≤ 3 :=
    le_trans (List.countP_le_length _) (by simp)
  have h3 : (if diagThreat (sq 0 0) (sq 1 1) (sq 2 2) mark then 1 else 0) ≤ 1 := by
    split <;> simp
  have h4 : (if diagThreat (sq 0 2) (sq 1 1) (sq 2 0) mark then 1 else 0) ≤ 1 := by
    split <;> simp
  omega

lemma cellControl_bounds (pov : Mark) (c : Cell) (pts : Int) (h : 0 ≤ pts) :
    -pts ≤ cellControl pov c pts ∧ cellControl pov c pts ≤ pts := by
  cases c with
  | none =>
    simp only [cellControl]
    omega
  | some m =>
    simp only [cellControl]
    split <;> omega

lemma scoreInner_bounds (p : Mark) (ib : InnerBoard) (st : Bool) :
    -1000 ≤ scoreInner p ib st ∧ scoreInner p ib st ≤ 1000 := by
  cases hw : ib.winner with
  | some w =>
    simp only [scoreInner, hw]
    split <;> omega
  | none =>
    have ht1 : (0 : Int) ≤ (threatsG ib.squares p : Int) := Int.natCast_nonneg _
    have ht2 : (threatsG ib.squares p : Int) ≤ 8 := by exact_mod_cast threatsG_le _ _
    have ht3 : (0 : Int) ≤ (threatsG ib.squares p.not : Int) := Int.natCast_nonneg _
    have ht4 : (threatsG ib.squares p.not : Int) ≤ 8 := by exact_mod_cast threatsG_le _ _
    have hc1 := cellControl_bounds p (ib.squares 1 1) 10 (by omega)
    have hc2 := cellControl_bounds p (ib.squares 0 1) 5 (by omega)
    have hc3 := cellControl_bounds p (ib.squares 1 0) 5 (by omega)
    have hc4 := cellControl_bounds p (ib.squares 1 2) 5 (by omega)
    have hc5 := cellControl_bounds p (ib.squares 2 1) 5 (by omega)
    have hc6 := cellControl_bounds p (ib.squares 0 0) 2 (by omega)
    have hc7 := cellControl_bounds p (ib.squares 0 2) 2 (by omega)
    have hc8 := cellControl_bounds p (ib.squares 2 0) 2 (by omega)
    have hc9 := cellControl_bounds p (ib.squares 2 2) 2 (by omega)
    simp only [scoreInner, hw]
    split <;> omega

lemma sumBoards_scoreInner_bounds (b : OuterBoard) (p : Mark) :
    -9000 ≤ sumBoards (fun r c => scoreInner p (b.boards r c) true)
      ∧ sumBoards (fun r c => scoreInner p (b.boards r c) true) ≤ 9000 := by
  have h00 := scoreInner_bounds p (b.boards 0 0) true
  have h01 := scoreInner_bounds p (b.boards 0 1) true
  have h02 := scoreInner_bounds p (b.boards 0 2) true
  have h10 := scoreInner_bounds p (b.boards 1 0) true
  have h11 := scoreInner_bounds p (b.boards 1 1) true
  have h12 := scoreInner_bounds p (b.boards 1 2) true
  have h20 := scoreInner_bounds p (b.boards 2 0) true
  have h21 := scoreInner_bounds p (b.boards 2 1) true
  have h22 := scoreInner_bounds p (b.boards 2 2) true
  simp only [sumBoards]
  omega

lemma heuristicBase_bounds (b : OuterBoard) (p : Mark) :
    -18000 ≤ heuristicBase b p ∧ heuristicBase b p ≤ 18000 := by
  have hs1 := scoreInner_bounds p b.meta_board false
  have ht1 : (0 : Int) ≤ (threatsG b.meta_board_with_draws (.won p) : Int) :=
    Int.natCast_nonneg _
  have ht2 : (threatsG b.meta_board_with_draws (.won p) : Int) ≤ 8 := by
    exact_mod_cast threatsG_le _ _
  have ht3 : (0 : Int) ≤ (threatsG b.meta_board_with_draws (.won p.not) : Int) :=
    Int.natCast_nonneg _
  have ht4 : (threatsG b.meta_board_with_draws (.won p.not) : Int) ≤ 8 := by
    exact_mod_cast threatsG_le _ _
  have hsum := sumBoards_scoreInner_bounds b p
  simp only [heuristicBase]
  omega

lemma heuristic_le (b : OuterBoard) (p n : Mark) :
    Searcher.heuristic b p n ≤ INT32_MAX := by
  have hbase := heuristicBase_bounds b p
  unfold Searcher.heuristic
  split
  · split
    · exact le_refl _
    · simp only [INT32_MIN, INT32_MAX]; omega
  · simp only [INT32_MAX]
    split
    · split <;> omega
    · omega

lemma abMaxLoop_le (step : OuterBoard → Int → Int → Int) (node : OuterBoard) (M : Int)
    (hstep : ∀ c a b2, step c a b2 ≤ M) :
    ∀ (moves : List Move) (best alpha beta : Int), best ≤ M →
      abMaxLoop step node moves best alpha beta ≤ M := by
  intro moves
  induction moves with
  | nil => intro best alpha beta h; exact h
  | cons m rest ih =>
    intro best alpha beta h
    unfold abMaxLoop
    cases node.make_move m with
    | none => exact ih best alpha beta h
    | some child =>
      simp only
      split
      · exact max_le h (hstep child alpha beta)
      · exact ih _ _ _ (max_le h (hstep child alpha beta))

lemma abMinLoop_le (step : OuterBoard → Int → Int → Int) (node : OuterBoard) (M : Int) :
    ∀ (moves : List Move) (best alpha beta : Int), best ≤ M →
      abMinLoop step node moves best alpha beta ≤ M := by
  intro moves
  induction moves with
  | nil => intro best alpha beta h; exact h
  | cons m rest ih =>
    intro best alpha beta h
    unfold abMinLoop
    cases node.make_move m with
    | none => exact ih best alpha beta h
    | some child =>
      simp only
      split
      · exact le_trans (min_le_left _ _) h
      · exact ih _ _ _ (le_trans (min_le_left _ _) h)

lemma branch_le (p : Mark) :
    ∀ (d : Nat) (node : OuterBoard) (maxi : Bool) (a b2 : Int),
      Searcher.branch p d node maxi a b2 ≤ INT32_MAX := by
  intro d
  induction d with
  | zero => intro node maxi a b2; exact heuristic_le _ _ _
  | succ depth ih =>
    intro node maxi a b2
    unfold Searcher.branch
    split
    · exact heuristic_le _ _ _
    · split
      · exact abMaxLoop_le _ _ _ (fun c a2 b3 => ih c false a2 b3) _ _ _ _
          (by unfold INT32_MIN INT32_MAX; omega)
      · exact abMinLoop_le _ _ _ _ _ _ _ (le_refl _)

/-! ### Per-line equivalences for the meta threat count -/

lemma rowThreat_metaCell :
    ∀ (p : Mark) (a b c : Option MetaCell),
      rowThreat a b c (MetaCell.won p) = openThirdLine a b c p := by
  decide

lemma diagThreat_metaCell :
    ∀ (p : Mark) (a b c : Option MetaCell),
      diagThreat a b c (MetaCell.won p) = openThirdLine a b c p := by
  decide

/-- The active-square invariant of the spec: whenever `active_square` points at
a sub-board, that sub-board is still playable. -/
def activeInv (b : OuterBoard) : Prop :=
  ∀ sq, b.active_square = some sq → (b.boards sq.1 sq.2).can_play

/-! ### Claim C1 -/

/-- C1 is refuted: the board `bWinPost`, produced by the very move that
completes the meta top row for X, has its overall winner set, yet
`possible_moves` is non-empty for both marks (`possible_moves` never consults
`overall_winner`). -/
theorem c1_counterexample :
    bWin.make_move mWin = some bWinPost
      ∧ bWinPost.overall_winner = some .X
      ∧ bWinPost.possible_moves .X ≠ []
      ∧ bWinPost.possible_moves .O ≠ [] := by
  refine ⟨by decide, by decide, by decide, by decide⟩

/-- C1 (amended): once `overall_winner` is set, no move is legal any more:
`make_move` returns nothing for every move, even though `possible_moves` can
still return a non-empty list. -/
theorem c1_theorem (b : OuterBoard) (m : Move) (h : b.overall_winner.isSome) :
    b.make_move m = none := by
  unfold OuterBoard.make_move
  rw [h]
  split <;> rfl

/-- C1 witness: the amended theorem applied to the decided board `bWinPost`. -/
theorem c1_witness : bWinPost.overall_winner.isSome ∧ bWinPost.make_move mFirst = none :=
  ⟨by decide, c1_theorem bWinPost mFirst (by decide)⟩

/-! ### Claim C2 -/

/-- C2 is refuted: `bWinPost` is produced by a successful `make_move`, its
overall winner is set, yet `possible_moves` still enumerates moves of the
untouched sub-boards and `make_move` rejects every one of them. -/
theorem c2_counterexample :
    mMid ∈ bWinPost.possible_moves .X ∧ bWinPost.make_move mMid = none := by
  refine ⟨by decide, by decide⟩

/-- C2 (amended): on a board whose overall winner is not yet set, applying any
move drawn from `possible_moves` to the board it was generated from always
succeeds. -/
theorem c2_theorem (b : OuterBoard) (p : Mark) (m : Move)
    (hw : b.overall_winner = none) (hm : m ∈ b.possible_moves p) :
    (b.make_move m).isSome :=
  make_move_isSome_of_mem b p m hw hm

/-- C2 witness: the amended theorem applied to the empty board and its first
enumerated move. -/
theorem c2_witness :
    (OuterBoard.default.overall_winner = none
        ∧ mFirst ∈ OuterBoard.default.possible_moves .X)
      ∧ (OuterBoard.default.make_move mFirst).isSome :=
  ⟨⟨rfl, by decide⟩, c2_theorem OuterBoard.default .X mFirst rfl (by decide)⟩

/-! ### Claim C3 -/

/-- C3 is refuted: on the decided board `bWinPost` (produced by a successful
`make_move`), `possible_moves` is non-empty, every `make_move` fails, so every
candidate scores `i32::MIN`, yet `max_by_key` still returns the last pair:
both `Searcher::search` and `computer_move` return a move that `make_move`
rejects. -/
theorem c3_counterexample :
    Searcher.search bWinPost .O = some (mLastO, INT32_MIN)
      ∧ bWinPost.computer_move = some mLastO
      ∧ bWinPost.make_move mLastO = none := by
  refine ⟨by decide, by decide, by decide⟩

/-- C3 (amended): on a board whose overall winner is not yet set, any move
returned by `Searcher::search` (and likewise by `computer_move`) applies
successfully. -/
theorem c3_theorem (b : OuterBoard) (p : Mark) (hw : b.overall_winner = none) :
    (∀ m v, Searcher.search b p = some (m, v) → (b.make_move m).isSome)
      ∧ ∀ m, b.computer_move = some m → (b.make_move m).isSome := by
  constructor
  · intro m v h
    unfold Searcher.search maxByKeyLast at h
    rcases mbkFold_mem _ _ _ _ h with h2 | h2
    · exact Option.noConfusion h2
    · rw [List.mem_map] at h2
      obtain ⟨m2, hm2, heq⟩ := h2
      have hmm : m2 = m := congrArg Prod.fst heq
      subst hmm
      exact make_move_isSome_of_mem b p _ hw hm2
  · intro m h
    unfold OuterBoard.computer_move maxByKeyLast at h
    rcases mbkFold_mem _ _ _ _ h with h2 | h2
    · exact Option.noConfusion h2
    · exact make_move_isSome_of_mem b COMPUTER_MARK m hw h2

/-- C3 witness: the amended theorem applied to an undecided near-full board
whose single legal move the search returns with value `i32::MAX`. -/
theorem c3_witness :
    bNearDraw.overall_winner = none ∧ (bNearDraw.make_move mNearDraw).isSome :=
  ⟨by decide,
    (c3_theorem bNearDraw .O (by decide)).1 mNearDraw INT32_MAX (by decide)⟩

/-! ### Claim C4 -/

/-- C4 is refuted: a move whose outer row is 3 reaches the target-board index
on the default board (no active-square or winner rejection intervenes) and the
bounds check fails — the Rust code panics instead of returning a result. -/
theorem c4_counterexample :
    OuterBoard.make_move_checked OuterBoard.default
        { outer := (3, 0), inner := (0, 0), player := .X }
      = .error () := by
  rfl

/-- C4 (amended): for every move whose four coordinates are in range,
`make_move` is total and panic-free — the checked model returns `.ok` with
exactly the result of the pure `make_move`; purity of the input board is
inherent in the value semantics of the model.  (Out-of-range moves can panic,
as the counterexample shows.) -/
theorem c4_theorem (b : OuterBoard) (mv : Move) :
    b.make_move_checked
        { outer := ((mv.outer.1 : Nat), (mv.outer.2 : Nat))
          inner := ((mv.inner.1 : Nat), (mv.inner.2 : Nat))
          player := mv.player }
      = .ok (b.make_move mv) := by
  unfold OuterBoard.make_move_checked OuterBoard.make_move
  have hcond :
      (Option.elim b.active_square false fun sq =>
          ((mv.outer.1 : Nat), (mv.outer.2 : Nat)) != ((sq.1 : Nat), (sq.2 : Nat)))
        = Option.elim b.active_square false fun sq => mv.outer != sq := by
    cases b.active_square with
    | none => rfl
    | some sq =>
      show (((mv.outer.1 : Nat), (mv.outer.2 : Nat)) != ((sq.1 : Nat), (sq.2 : Nat)))
          = (mv.outer != sq)
      rcases mv with ⟨⟨a1, a2⟩, i, pl⟩
      rcases sq with ⟨s1, s2⟩
      simp [bne, Prod.ext_iff, Fin.ext_iff]
  rw [hcond]
  by_cases h1 : (Option.elim b.active_square false fun sq => mv.outer != sq) = true
  · rw [if_pos h1, if_pos h1]
  · rw [if_neg h1, if_neg h1]
    by_cases h2 : b.overall_winner.isSome = true
    · rw [if_pos h2, if_pos h2]
    · rw [if_neg h2, if_neg h2]
      rw [dif_pos mv.outer.1.isLt, dif_pos mv.outer.2.isLt]
      simp only [Fin.eta]
      by_cases h3 : (b.boards mv.outer.1 mv.outer.2).winner.isSome = true
      · rw [if_pos h3, if_pos h3]
      · rw [if_neg h3, if_neg h3]
        rw [dif_pos mv.inner.1.isLt, dif_pos mv.inner.2.isLt]
        try simp only [Fin.eta]
        by_cases h4 :
            ((b.boards mv.outer.1 mv.outer.2).squares mv.inner.1 mv.inner.2).isSome = true
        · rw [if_pos h4, if_pos h4]
        · rw [if_neg h4, if_neg h4]

/-! ### Claim C5 -/

/-- C5 is refuted: in the meta top row of `bMetaDraw` two sub-boards are won
by X and the third is drawn, so the claim's condition counts one threat, but
the code's threat count over the draw-aware meta grid is 0 — the drawn slot
does not satisfy the `is_none` third-slot test. -/
theorem c5_counterexample :
    threatsG bMetaDraw.meta_board_with_draws (MetaCell.won .X) = 0
      ∧ claimMetaThreats bMetaDraw.meta_board_with_draws .X = 1 := by
  refine ⟨by decide, by decide⟩

/-- C5 (amended): a line of the derived Win/Draw/Open grid counts as a threat
for `player` exactly when it holds exactly two sub-boards won by `player` and
at least one open slot; a drawn sub-board does not qualify as the third
slot. -/
theorem c5_theorem (g : Grid (Option MetaCell)) (p : Mark) :
    threatsG g (MetaCell.won p) = openMetaThreats g p := by
  unfold threatsG openMetaThreats
  simp only [rowThreat_metaCell, diagThreat_metaCell]

/-! ### Claim C6 -/

/-- C6 is confirmed: after a successful move, `active_square` is
`some move.inner` exactly when the sub-board at `move.inner` of the resulting
board can still be played, and `none` otherwise. -/
theorem c6_theorem (b : OuterBoard) (m : Move) (c : OuterBoard)
    (h : b.make_move m = some c) :
    c.active_square
      = if (c.boards m.inner.1 m.inner.2).can_play then some m.inner else none := by
  obtain rfl := make_move_eq_some b m c h
  exact apply_unchecked_active b m

/-- C6 witness: the theorem applied to the empty board and the move at cell
(0,0) of sub-board (0,0). -/
theorem c6_witness :
    OuterBoard.default.make_move mFirst = some bFirstPost
      ∧ bFirstPost.active_square
        = if (bFirstPost.boards 0 0).can_play then some (0, 0) else none :=
  ⟨by decide, c6_theorem OuterBoard.default mFirst bFirstPost (by decide)⟩

/-! ### Claim C7 -/

/-- C7 is refuted: from `bTie`, X has exactly two legal moves; only `mTieWin`
wins the game at once, yet the other move's subtree also searches to
`i32::MAX` (every O reply loses immediately), and rayon's `max_by_key`
tie-break toward the latest element makes `search` return the non-winning
move. -/
theorem c7_counterexample :
    bTie.possible_moves .X = [mTieWin, mTieOther]
      ∧ (bTie.make_move mTieWin).isSome
      ∧ ((bTie.make_move mTieWin).getD OuterBoard.default).overall_winner = some .X
      ∧ (bTie.make_move mTieOther).isSome
      ∧ ((bTie.make_move mTieOther).getD OuterBoard.default).overall_winner = none
      ∧ Searcher.search bTie .X = some (mTieOther, INT32_MAX) := by
  refine ⟨by decide, by decide, by decide, by decide, by decide, by decide⟩

/-- C7 (amended): whenever some legal move of `player` immediately wins the
whole game (its child's recomputed meta winner is `player`), `best_move`
returns a move paired with the maximum representable score `i32::MAX`; the
returned move is the winning one only up to ties, which `max_by_key` breaks
toward the last enumerated move. -/
theorem c7_theorem (b : OuterBoard) (p : Mark) (m : Move) (c : OuterBoard)
    (hw : b.overall_winner = none) (hm : m ∈ b.possible_moves p)
    (hc : b.make_move m = some c) (hmeta : c.meta_board.winner = some p) :
    ∃ m2, Searcher.search b p = some (m2, INT32_MAX) := by
  have hover : c.overall_winner = some p := by
    have h1 : c.overall_winner = findWinner fun i j => (c.boards i j).winner := by
      obtain rfl := make_move_eq_some b m c hc
      exact apply_unchecked_overall b m hw
    rw [h1]
    exact hmeta
  have hval : ((b.make_move m).elim INT32_MIN fun child =>
      Searcher.branch p (MAX_DEPTH - 1) child false INT32_MIN INT32_MAX) = INT32_MAX := by
    rw [hc]
    show Searcher.branch p (14 + 1) c false INT32_MIN INT32_MAX = INT32_MAX
    unfold Searcher.branch
    rw [hover]
    simp only [Option.isSome_some, if_true]
    unfold Searcher.heuristic
    rw [hmeta]
    simp
  set pairs := (b.possible_moves p).map (fun m2 =>
    (m2, (b.make_move m2).elim INT32_MIN fun child =>
      Searcher.branch p (MAX_DEPTH - 1) child false INT32_MIN INT32_MAX)) with hpairs
  have hmem : (m, INT32_MAX) ∈ pairs := by
    rw [hpairs]
    exact List.mem_map.mpr ⟨m, hm, by rw [hval]⟩
  have hne : pairs ≠ [] := List.ne_nil_of_mem hmem
  have hsome := maxByKeyLast_isSome (fun q => q.2) pairs hne
  obtain ⟨res, hres⟩ := Option.isSome_iff_exists.mp hsome
  obtain ⟨m2, v⟩ := res
  have hfold : pairs.foldl (mbkStep fun q => q.2) none = some (m2, v) := hres
  have hge : INT32_MAX ≤ v :=
    ((mbkFold_ge (fun q => q.2) pairs none (m2, v) hfold).1 (m, INT32_MAX) hmem : _)
  have hmem2 : (m2, v) ∈ pairs := by
    rcases mbkFold_mem (fun q => q.2) pairs none (m2, v) hfold with h2 | h2
    · exact Option.noConfusion h2
    · exact h2
  have hle : v ≤ INT32_MAX := by
    rw [hpairs, List.mem_map] at hmem2
    obtain ⟨m3, hm3, heq⟩ := hmem2
    have hv : v = (b.make_move m3).elim INT32_MIN fun child =>
        Searcher.branch p (MAX_DEPTH - 1) child false INT32_MIN INT32_MAX :=
      (congrArg Prod.snd heq).symm
    rw [hv]
    cases b.make_move m3 with
    | none =>
      show INT32_MIN ≤ INT32_MAX
      unfold INT32_MIN INT32_MAX
      omega
    | some child => exact branch_le p _ child false _ _
  have hv : v = INT32_MAX := le_antisymm hle hge
  refine ⟨m2, ?_⟩
  show maxByKeyLast (fun q => q.2) pairs = some (m2, INT32_MAX)
  rw [← hv]
  exact hres

/-- C7 witness: the amended theorem applied to `bWin`, where `mWin` completes
the meta top row for X. -/
theorem c7_witness :
    (mWin ∈ bWin.possible_moves .X
        ∧ bWin.overall_winner = none
        ∧ bWin.make_move mWin = some bWinPost
        ∧ bWinPost.meta_board.winner = some .X)
      ∧ ∃ m2, Searcher.search bWin .X = some (m2, INT32_MAX) :=
  ⟨⟨by decide, by decide, by decide, by decide⟩,
    c7_theorem bWin .X mWin bWinPost (by decide) (by decide) (by decide) (by decide)⟩

/-! ### Claim C8 -/

/-- C8 is refuted on `random`: under the draw that fills every cell (forced by
`fill_percentage = 1.0`), the generated board keeps the `active_square` seeded
before filling, yet the sub-board there is full (indeed won), so the invariant
fails — `random` never re-checks `active_square` after filling. -/
theorem c8_counterexample :
    bRandomFull.active_square = some (0, 0)
      ∧ (bRandomFull.boards 0 0).can_play = false := by
  refine ⟨by decide, by decide⟩

/-- C8 (amended): the empty board and every board produced by a successful
`make_move` satisfy the invariant that an active square always points at a
playable sub-board; boards produced by `random` need not. -/
theorem c8_theorem :
    activeInv OuterBoard.default
      ∧ ∀ (b : OuterBoard) (m : Move) (c : OuterBoard),
          b.make_move m = some c → activeInv c := by
  constructor
  · intro sq hsq
    exact Option.noConfusion hsq
  · intro b m c h sq hsq
    obtain rfl := make_move_eq_some b m c h
    rw [apply_unchecked_active] at hsq
    split at hsq
    · obtain rfl := Option.some.inj hsq
      assumption
    · exact Option.noConfusion hsq

/-- C8 witness: the make-move part of the theorem applied to the empty board;
the resulting active square (0,0) points at a playable sub-board. -/
theorem c8_witness :
    OuterBoard.default.make_move mFirst = some bFirstPost
      ∧ (bFirstPost.boards 0 0).can_play :=
  ⟨by decide,
    c8_theorem.2 OuterBoard.default mFirst bFirstPost (by decide) (0, 0) (by decide)⟩

/-! ### Claim C9 -/

/-- C9 is confirmed: once an `InnerBoard`'s winner is set, `update_winner`
leaves the board unchanged, and `update_winner` is idempotent on every
board. -/
theorem c9_theorem (b : InnerBoard) :
    (b.winner.isSome → b.update_winner = b)
      ∧ b.update_winner.update_winner = b.update_winner := by
  constructor
  · intro h
    obtain ⟨w, hw⟩ := Option.isSome_iff_exists.mp h
    simp [InnerBoard.update_winner, hw]
  · cases hw : b.winner with
    | some w => simp [InnerBoard.update_winner, hw]
    | none =>
      simp only [InnerBoard.update_winner, hw]
      cases hf : findWinner b.squares <;> simp [hf]

/-- C9 witness: the theorem applied to a sub-board already won by X. -/
theorem c9_witness : ibWonX.winner.isSome ∧ ibWonX.update_winner = ibWonX :=
  ⟨by decide, (c9_theorem ibWonX).1 (by decide)⟩

/-! ### Claim C10 -/

/-- C10 is refuted already on the empty board: `heuristic_score` yields 0
while `Searcher::heuristic` for the computer mark yields 200 (or -200) from
its tempo bonus, a term `heuristic_score` does not have at all. -/
theorem c10_counterexample :
    OuterBoard.default.heuristic_score = 0
      ∧ Searcher.heuristic OuterBoard.default COMPUTER_MARK COMPUTER_MARK = 200
      ∧ Searcher.heuristic OuterBoard.default COMPUTER_MARK HUMAN_MARK = -200
      ∧ OuterBoard.default.heuristic_score
          ≠ Searcher.heuristic OuterBoard.default COMPUTER_MARK COMPUTER_MARK := by
  refine ⟨by decide, by decide, by decide, by decide⟩

/-- C10 (amended): the two evaluators agree on the boards where both take
their terminal branch: whenever the memoized overall winner and the
recomputed meta winner are the same mark, both return `i32::MAX` for the
computer and `i32::MIN` otherwise, for every `next_mark`. -/
theorem c10_theorem (b : OuterBoard) (w next : Mark)
    (h1 : b.overall_winner = some w) (h2 : b.meta_board.winner = some w) :
    b.heuristic_score = Searcher.heuristic b COMPUTER_MARK next := by
  unfold OuterBoard.heuristic_score Searcher.heuristic
  rw [h1, h2]

/-- C10 witness: the amended theorem applied to a decided board whose meta row
of X-won sub-boards matches its memoized overall winner. -/
theorem c10_witness :
    bDecidedRow.overall_winner = some .X
      ∧ bDecidedRow.meta_board.winner = some .X
      ∧ bDecidedRow.heuristic_score
          = Searcher.heuristic bDecidedRow COMPUTER_MARK HUMAN_MARK :=
  ⟨by decide, by decide, c10_theorem bDecidedRow .X HUMAN_MARK (by decide) (by decide)⟩

end Supertris
